import Mathlib

/-!
Verification of the core text-transform algorithms of
PromptInspector-VisibleLineBreaks (src/index.js).

Strings are embedded as `List Char`.  Each JavaScript function is embedded
as a Lean function of the same name; the per-character scanning loops with
their mutable `inStr` / `backslashCount` state become tail helper functions
(`…Go`) taking the state explicitly.
-/

/-- JS `String.prototype.trim` whitespace (WhiteSpace and LineTerminator
code points). -/
def isJsWhitespace (c : Char) : Bool :=
  c == ' ' || c == '\t' || c == '\n' || c == '\r' || c == '\x0b' || c == '\x0c' ||
  c == '\xa0' || c == '\u1680' || ('\u2000' ≤ c && c ≤ '\u200a') ||
  c == '\u2028' || c == '\u2029' || c == '\u202f' || c == '\u205f' ||
  c == '\u3000' || c == '\ufeff'

/-- src/index.js `isLikelyJson` (lines 29-33): the empty string is falsy,
otherwise trim and test whether the text starts with a brace or bracket. -/
def isLikelyJson (s : List Char) : Bool :=
  match s.dropWhile isJsWhitespace with
  | [] => false
  | c :: _ => c == '{' || c == '['

/-- Scanning loop of `jsonStringsDisplayNewlines` (lines 45-76), state
`inStr` / `backslashCount` explicit; returns the emitted characters,
including the end-of-input flush of a pending backslash run (line 75). -/
def displayGo : List Char → Bool → Nat → List Char
  | [], _, run => List.replicate run '\\'
  | c :: rest, inStr, run =>
    if inStr then
      if c = '\\' then displayGo rest true (run + 1)
      else if c = '"' then
        List.replicate run '\\' ++ '"' :: displayGo rest (decide (run % 2 = 1)) 0
      else if c = 'n' ∧ 0 < run then
        List.replicate (run - 1) '\\' ++ '\n' :: displayGo rest true 0
      else
        List.replicate run '\\' ++ c :: displayGo rest true 0
    else
      c :: displayGo rest (c == '"') run

/-- src/index.js `jsonStringsDisplayNewlines` (lines 38-77): the raw→friendly
transform ("toFriendly"). -/
def jsonStringsDisplayNewlines (src : List Char) : List Char :=
  if isLikelyJson src then displayGo src false 0 else src

/-- Scanning loop of `jsonStringsSaveNewlines` (lines 86-118).  Note line
100: a carriage return inside a string is skipped without touching
`backslashCount`. -/
def saveGo : List Char → Bool → Nat → List Char
  | [], _, run => List.replicate run '\\'
  | c :: rest, inStr, run =>
    if inStr then
      if c = '\\' then saveGo rest true (run + 1)
      else if c = '"' then
        List.replicate run '\\' ++ '"' :: saveGo rest (decide (run % 2 = 1)) 0
      else if c = '\r' then saveGo rest true run
      else if c = '\n' then
        List.replicate run '\\' ++ '\\' :: 'n' :: saveGo rest true 0
      else
        List.replicate run '\\' ++ c :: saveGo rest true 0
    else
      c :: saveGo rest (c == '"') run

/-- src/index.js `jsonStringsSaveNewlines` (lines 79-119): the friendly→raw
transform ("toRaw"). -/
def jsonStringsSaveNewlines (src : List Char) : List Char :=
  if isLikelyJson src then saveGo src false 0 else src

/-- Spec-side predicate (from the claims' precondition language): scanning
with the transforms' shared state transitions, no carriage return occurs
inside a string literal. -/
def noCRinStringsGo : List Char → Bool → Nat → Bool
  | [], _, _ => true
  | c :: rest, inStr, run =>
    if inStr then
      if c = '\\' then noCRinStringsGo rest true (run + 1)
      else if c = '"' then noCRinStringsGo rest (decide (run % 2 = 1)) 0
      else if c = '\r' then false
      else noCRinStringsGo rest true 0
    else
      noCRinStringsGo rest (c == '"') run

/-- No carriage return inside any string literal of `s`. -/
def noCRinStrings (s : List Char) : Bool := noCRinStringsGo s false 0

/-- Spec-side predicate: no carriage return and no line feed inside any
string literal (same state transitions as the transforms). -/
def cleanStringsGo : List Char → Bool → Nat → Bool
  | [], _, _ => true
  | c :: rest, inStr, run =>
    if inStr then
      if c = '\\' then cleanStringsGo rest true (run + 1)
      else if c = '"' then cleanStringsGo rest (decide (run % 2 = 1)) 0
      else if c = '\r' ∨ c = '\n' then false
      else cleanStringsGo rest true 0
    else
      cleanStringsGo rest (c == '"') run

/-- No carriage return and no line feed inside any string literal of `s`. -/
def cleanStrings (s : List Char) : Bool := cleanStringsGo s false 0

/-! ### Claims C7, C6, C3, C4 -/

/-- Claim C7: for every text where `isLikelyJson` is false, both transform
directions return the input unchanged. -/
theorem c7_nonjson_identity (text : List Char) (h : isLikelyJson text = false) :
    jsonStringsDisplayNewlines text = text ∧ jsonStringsSaveNewlines text = text := by
  constructor
  · unfold jsonStringsDisplayNewlines
    simp [h]
  · unfold jsonStringsSaveNewlines
    simp [h]

/-- Witness for C7 at the concrete non-JSON text `hi`. -/
theorem c7_nonjson_identity_witness :
    isLikelyJson ['h', 'i'] = false ∧
      jsonStringsDisplayNewlines ['h', 'i'] = ['h', 'i'] ∧
      jsonStringsSaveNewlines ['h', 'i'] = ['h', 'i'] :=
  ⟨by decide, c7_nonjson_identity ['h', 'i'] (by decide)⟩

/-- Claim C6: inside a string, `toFriendly` turns a literal `n` preceded by a
pending run of `run + 1` backslashes into `run` backslashes followed by one
real line feed (resetting the run); with a zero run the `n` is emitted
unchanged; and concretely
`toFriendly` of `{"a":"line1\nline2"}` is `{"a":"line1` LF `line2"}`. -/
theorem c6_escape_pair :
    (∀ (rest : List Char) (run : Nat),
        displayGo ('n' :: rest) true (run + 1) =
          List.replicate run '\\' ++ '\n' :: displayGo rest true 0) ∧
    (∀ rest : List Char, displayGo ('n' :: rest) true 0 = 'n' :: displayGo rest true 0) ∧
    jsonStringsDisplayNewlines
        ['{', '"', 'a', '"', ':', '"', 'l', 'i', 'n', 'e', '1', '\\', 'n',
         'l', 'i', 'n', 'e', '2', '"', '}'] =
      ['{', '"', 'a', '"', ':', '"', 'l', 'i', 'n', 'e', '1', '\n',
       'l', 'i', 'n', 'e', '2', '"', '}'] := by
  refine ⟨fun rest run => ?_, fun rest => ?_, by decide⟩
  · simp [displayGo]
  · simp [displayGo]

/-- Counterexample to claim C3: on `{"a":"x\\nY"}` (backslash, backslash, n
inside the string) `toFriendly` does not leave the two backslashes and the
`n` unchanged — it emits one backslash and a real line feed. -/
theorem c3_counterexample :
    jsonStringsDisplayNewlines
        ['{', '"', 'a', '"', ':', '"', 'x', '\\', '\\', 'n', 'Y', '"', '}'] =
      ['{', '"', 'a', '"', ':', '"', 'x', '\\', '\n', 'Y', '"', '}'] ∧
    jsonStringsDisplayNewlines
        ['{', '"', 'a', '"', ':', '"', 'x', '\\', '\\', 'n', 'Y', '"', '}'] ≠
      ['{', '"', 'a', '"', ':', '"', 'x', '\\', '\\', 'n', 'Y', '"', '}'] := by
  constructor
  · decide
  · decide

/-- Claim C3 as amended: a backslash run of length 2 before `n` also
converts — `toFriendly` emits `run - 1` backslashes and a real line feed for
any non-zero run; concretely `{"a":"x\\nY"}` becomes `{"a":"x\` LF `Y"}`. -/
theorem c3_even_run_converts :
    (∀ rest : List Char,
        displayGo ('n' :: rest) true 2 = '\\' :: '\n' :: displayGo rest true 0) ∧
    jsonStringsDisplayNewlines
        ['{', '"', 'a', '"', ':', '"', 'x', '\\', '\\', 'n', 'Y', '"', '}'] =
      ['{', '"', 'a', '"', ':', '"', 'x', '\\', '\n', 'Y', '"', '}'] := by
  refine ⟨fun rest => ?_, by decide⟩
  simp [displayGo]

/-- Counterexample to claim C4: `toRaw` does not reset the pending backslash
run when it drops a carriage return.  On `{"\` CR `n"}` the backslash pending
before the CR is carried over to the `n`, giving `{"\n"}`; resetting the run
would give `{"n"}`. -/
theorem c4_counterexample :
    jsonStringsSaveNewlines ['{', '"', '\\', '\r', 'n', '"', '}'] =
      ['{', '"', '\\', 'n', '"', '}'] ∧
    saveGo ['\r', 'n'] true 1 = ['\\', 'n'] ∧
    saveGo ['n'] true 0 = ['n'] ∧
    saveGo ['\r', 'n'] true 1 ≠ saveGo ['n'] true 0 := by
  refine ⟨by decide, by decide, by decide, by decide⟩

/-- Claim C4 as amended: when `toRaw` scans a carriage return inside a string
literal it emits nothing for it and leaves the pending backslash run
unchanged, so pending backslashes are carried over to the next character. -/
theorem c4_cr_drop_keeps_run (rest : List Char) (run : Nat) :
    saveGo ('\r' :: rest) true run = saveGo rest true run := by
  simp [saveGo]

/-! ### Offset mappers (src/index.js lines 511-565) and claims C2, C8 -/

/-- Loop of `mapRawTopToFriendlyIndex` (lines 515-538) with the final flush
of line 539; `acc` is the running `friendly` counter. -/
def mapRawToFriendlyGo : List Char → Bool → Nat → Nat → Nat
  | [], _, run, acc => acc + run
  | c :: rest, inStr, run, acc =>
    if inStr then
      if c = '\\' then mapRawToFriendlyGo rest true (run + 1) acc
      else if c = '"' then mapRawToFriendlyGo rest (decide (run % 2 = 1)) 0 (acc + run + 1)
      else if c = 'n' ∧ 0 < run then mapRawToFriendlyGo rest true 0 (acc + (run - 1) + 1)
      else mapRawToFriendlyGo rest true 0 (acc + run + 1)
    else
      mapRawToFriendlyGo rest (c == '"') run (acc + 1)

/-- src/index.js `mapRawTopToFriendlyIndex` (lines 511-541).  The JS loop
runs while `i < src.length && i < rawIndex`, i.e. over the first
`rawIndex` characters. -/
def mapRawTopToFriendlyIndex (src : List Char) (rawIndex : Nat) : Nat :=
  mapRawToFriendlyGo (src.take rawIndex) false 0 0

/-- Loop of `mapFriendlyTopToRawIndex` (lines 546-563); `acc` is the running
`raw` counter.  Backslashes are counted eagerly (line 549); there is no
end-of-loop flush. -/
def mapFriendlyToRawGo : List Char → Bool → Nat → Nat → Nat
  | [], _, _, acc => acc
  | c :: rest, inStr, run, acc =>
    if inStr then
      if c = '\\' then mapFriendlyToRawGo rest true (run + 1) (acc + 1)
      else if c = '"' then mapFriendlyToRawGo rest (decide (run % 2 = 1)) 0 (acc + 1)
      else if c = '\r' then mapFriendlyToRawGo rest true 0 (acc + 1)
      else if c = '\n' then mapFriendlyToRawGo rest true 0 (acc + 2)
      else mapFriendlyToRawGo rest true 0 (acc + 1)
    else
      mapFriendlyToRawGo rest (c == '"') run (acc + 1)

/-- src/index.js `mapFriendlyTopToRawIndex` (lines 542-565). -/
def mapFriendlyTopToRawIndex (src : List Char) (friendlyIndex : Nat) : Nat :=
  mapFriendlyToRawGo (src.take friendlyIndex) false 0 0

/-- The raw→friendly mapper counts exactly the characters `displayGo`
emits, from any state. -/
theorem mapRawToFriendlyGo_eq_length (s : List Char) :
    ∀ (inStr : Bool) (run acc : Nat),
      mapRawToFriendlyGo s inStr run acc = acc + (displayGo s inStr run).length := by
  induction s with
  | nil =>
    intro inStr run acc
    simp [mapRawToFriendlyGo, displayGo]
  | cons c rest ih =>
    intro inStr run acc
    cases inStr with
    | false =>
      simp only [mapRawToFriendlyGo, displayGo, if_neg Bool.false_ne_true]
      rw [ih]
      simp [Nat.add_comm, Nat.add_assoc, Nat.add_left_comm]
    | true =>
      by_cases hb : c = '\\'
      · subst hb
        simp only [mapRawToFriendlyGo, displayGo, if_pos trivial, if_pos rfl]
        exact ih true (run + 1) acc
      · by_cases hq : c = '"'
        · subst hq
          simp only [mapRawToFriendlyGo, displayGo, if_pos trivial, if_neg hb, if_pos rfl]
          rw [ih]
          simp
          omega
        · by_cases hn : c = 'n' ∧ 0 < run
          · simp only [mapRawToFriendlyGo, displayGo, if_pos trivial, if_neg hb, if_neg hq,
              if_pos hn]
            rw [ih]
            simp
            omega
          · simp only [mapRawToFriendlyGo, displayGo, if_pos trivial, if_neg hb, if_neg hq,
              if_neg hn]
            rw [ih]
            simp
            omega

/-- The friendly→raw mapper counts exactly the characters `saveGo` emits
(the pending run flushed at the cut), from any carriage-return-free state:
`map + run = acc + emitted` because the mapper counts pending backslashes
eagerly while the transform defers them. -/
theorem mapFriendlyToRawGo_eq_length (s : List Char) :
    ∀ (inStr : Bool) (run acc : Nat), noCRinStringsGo s inStr run = true →
      mapFriendlyToRawGo s inStr run acc + run = acc + (saveGo s inStr run).length := by
  induction s with
  | nil =>
    intro inStr run acc _
    simp [mapFriendlyToRawGo, saveGo]
  | cons c rest ih =>
    intro inStr run acc hcr
    cases inStr with
    | false =>
      simp only [mapFriendlyToRawGo, saveGo, if_neg Bool.false_ne_true]
      have := ih (c == '"') run (acc + 1) (by
        simpa only [noCRinStringsGo, if_neg Bool.false_ne_true] using hcr)
      simp only [List.length_cons]
      omega
    | true =>
      by_cases hb : c = '\\'
      · subst hb
        simp only [mapFriendlyToRawGo, saveGo, if_pos trivial, if_pos rfl]
        have := ih true (run + 1) (acc + 1) (by
          simpa only [noCRinStringsGo, if_pos trivial, if_pos rfl] using hcr)
        omega
      · by_cases hq : c = '"'
        · subst hq
          simp only [mapFriendlyToRawGo, saveGo, if_pos trivial, if_neg hb, if_pos rfl]
          have := ih (decide (run % 2 = 1)) 0 (acc + 1) (by
            simpa only [noCRinStringsGo, if_pos trivial, if_neg hb, if_pos rfl] using hcr)
          simp only [List.length_append, List.length_replicate, List.length_cons]
          omega
        · by_cases hr : c = '\r'
          · exfalso
            subst hr
            simp only [noCRinStringsGo, if_pos trivial, if_neg hb, if_neg hq, if_pos rfl] at hcr
            exact Bool.false_ne_true hcr
          · by_cases hn : c = '\n'
            · subst hn
              simp only [mapFriendlyToRawGo, saveGo, if_pos trivial, if_neg hb, if_neg hq,
                if_neg hr, if_pos rfl]
              have := ih true 0 (acc + 2) (by
                simpa only [noCRinStringsGo, if_pos trivial, if_neg hb, if_neg hq,
                  if_neg hr] using hcr)
              simp only [List.length_append, List.length_replicate, List.length_cons]
              omega
            · simp only [mapFriendlyToRawGo, saveGo, if_pos trivial, if_neg hb, if_neg hq,
                if_neg hr, if_neg hn]
              have := ih true 0 (acc + 1) (by
                simpa only [noCRinStringsGo, if_pos trivial, if_neg hb, if_neg hq,
                  if_neg hr] using hcr)
              simp only [List.length_append, List.length_replicate, List.length_cons]
              omega

/-- Counterexample to claim C2: on text `{"` CR with offset 3, the
friendly→raw mapper returns 3, but `toRaw`'s scan emits only 2 characters
for that prefix (the carriage return is dropped). -/
theorem c2_counterexample :
    mapFriendlyTopToRawIndex ['{', '"', '\r'] 3 = 3 ∧
    (saveGo (List.take 3 ['{', '"', '\r']) false 0).length = 2 ∧
    mapFriendlyTopToRawIndex ['{', '"', '\r'] 3 ≠
      (saveGo (List.take 3 ['{', '"', '\r']) false 0).length := by
  refine ⟨by decide, by decide, by decide⟩

/-- Claim C2 as amended: `mapRawTopToFriendlyIndex text i` always equals the
number of characters `toFriendly`'s scan emits for the first `i` characters;
`mapFriendlyTopToRawIndex text i` equals the number of characters `toRaw`'s
scan emits (pending backslashes flushed at the cut) provided no carriage
return occurs inside a string literal in that prefix. -/
theorem c2_mapper_transform_agreement (text : List Char) (i : Nat)
    (_hi : i ≤ text.length) (hcr : noCRinStrings (text.take i) = true) :
    mapRawTopToFriendlyIndex text i = (displayGo (text.take i) false 0).length ∧
    mapFriendlyTopToRawIndex text i = (saveGo (text.take i) false 0).length := by
  constructor
  · simpa using mapRawToFriendlyGo_eq_length (text.take i) false 0 0
  · have := mapFriendlyToRawGo_eq_length (text.take i) false 0 0 hcr
    simpa [mapFriendlyTopToRawIndex] using this

/-- Witness for C2 (amended) at text `{"a` and offset 2. -/
theorem c2_mapper_transform_agreement_witness :
    2 ≤ List.length ['{', '"', 'a'] ∧ noCRinStrings (List.take 2 ['{', '"', 'a']) = true ∧
      mapRawTopToFriendlyIndex ['{', '"', 'a'] 2 =
        (displayGo (List.take 2 ['{', '"', 'a']) false 0).length ∧
      mapFriendlyTopToRawIndex ['{', '"', 'a'] 2 =
        (saveGo (List.take 2 ['{', '"', 'a']) false 0).length :=
  ⟨by decide, by decide,
    c2_mapper_transform_agreement ['{', '"', 'a'] 2 (by decide) (by decide)⟩

/-- Counterexample to claim C8: the mapping functions do not test
`isLikelyJson`.  The text `x"\n"` is not likely JSON, yet
`mapRawTopToFriendlyIndex` at offset 4 returns 3, and on `x"` LF the
friendly→raw mapper at offset 3 returns 4. -/
theorem c8_counterexample :
    isLikelyJson ['x', '"', '\\', 'n', '"'] = false ∧
    mapRawTopToFriendlyIndex ['x', '"', '\\', 'n', '"'] 4 ≠ 4 ∧
    isLikelyJson ['x', '"', '\n'] = false ∧
    mapFriendlyTopToRawIndex ['x', '"', '\n'] 3 ≠ 3 := by
  refine ⟨by decide, by decide, by decide, by decide⟩

/-- The raw→friendly mapper loop adds one per character while no
double quote has been seen (state outside any string). -/
theorem mapRawToFriendlyGo_noQuote (s : List Char) :
    ∀ (run acc : Nat), s.all (fun c => !(c == '"')) = true →
      mapRawToFriendlyGo s false run acc = acc + run + s.length := by
  induction s with
  | nil => intro run acc _; simp [mapRawToFriendlyGo]
  | cons c rest ih =>
    intro run acc hall
    simp only [List.all_cons, Bool.and_eq_true] at hall
    simp only [mapRawToFriendlyGo, if_neg Bool.false_ne_true]
    have hc : (c == '"') = false := by
      cases h : c == '"'
      · rfl
      · rw [h] at hall; exact absurd hall.1 (by simp)
    rw [hc, ih run (acc + 1) hall.2]
    simp only [List.length_cons]
    omega

/-- The friendly→raw mapper loop adds one per character while no
double quote has been seen. -/
theorem mapFriendlyToRawGo_noQuote (s : List Char) :
    ∀ (run acc : Nat), s.all (fun c => !(c == '"')) = true →
      mapFriendlyToRawGo s false run acc = acc + s.length := by
  induction s with
  | nil => intro run acc _; simp [mapFriendlyToRawGo]
  | cons c rest ih =>
    intro run acc hall
    simp only [List.all_cons, Bool.and_eq_true] at hall
    simp only [mapFriendlyToRawGo, if_neg Bool.false_ne_true]
    have hc : (c == '"') = false := by
      cases h : c == '"'
      · rfl
      · rw [h] at hall; exact absurd hall.1 (by simp)
    rw [hc, ih run (acc + 1) hall.2]
    simp only [List.length_cons]
    omega

/-- Claim C8 as amended: the mapping functions do not test `isLikelyJson`
(the caller bypasses them on non-JSON text); as pure functions they are the
identity on every offset `i ≤ length` for any text containing no double
quote — in particular they scan non-JSON text exactly like JSON text. -/
theorem c8_mapping_identity_no_quote (text : List Char) (i : Nat)
    (hq : text.all (fun c => !(c == '"')) = true) (hi : i ≤ text.length) :
    mapRawTopToFriendlyIndex text i = i ∧ mapFriendlyTopToRawIndex text i = i := by
  have htake : (text.take i).all (fun c => !(c == '"')) = true := by
    rw [List.all_eq_true] at hq ⊢
    exact fun c hc => hq c (List.take_subset i text hc)
  have hlen : (text.take i).length = i := by
    simp [List.length_take]
    omega
  constructor
  · unfold mapRawTopToFriendlyIndex
    rw [mapRawToFriendlyGo_noQuote (text.take i) 0 0 htake, hlen]
    omega
  · unfold mapFriendlyTopToRawIndex
    rw [mapFriendlyToRawGo_noQuote (text.take i) 0 0 htake, hlen]
    omega

/-- Witness for C8 (amended) at the quote-free text `abc` and offset 2. -/
theorem c8_mapping_identity_no_quote_witness :
    (List.all ['a', 'b', 'c'] (fun c => !(c == '"')) = true) ∧ 2 ≤ List.length ['a', 'b', 'c'] ∧
      mapRawTopToFriendlyIndex ['a', 'b', 'c'] 2 = 2 ∧
      mapFriendlyTopToRawIndex ['a', 'b', 'c'] 2 = 2 :=
  ⟨by decide, by decide, c8_mapping_identity_no_quote ['a', 'b', 'c'] 2 (by decide) (by decide)⟩

/-! ### Claim C1: round trip -/

/-- `saveGo` absorbs a leading backslash block into its pending run. -/
theorem saveGo_replicate_backslash (k : Nat) :
    ∀ (l : List Char) (r : Nat),
      saveGo (List.replicate k '\\' ++ l) true r = saveGo l true (r + k) := by
  induction k with
  | zero => intro l r; simp
  | succ n ih =>
    intro l r
    rw [List.replicate_succ, List.cons_append]
    show saveGo ('\\' :: (List.replicate n '\\' ++ l)) true r = _
    simp only [saveGo, if_pos trivial, if_pos rfl]
    rw [ih l (r + 1)]
    congr 1
    omega

/-- Reduction of `displayGo` at a literal `n` with a positive pending run. -/
theorem displayGo_n_run (rest : List Char) (run : Nat) (h : 0 < run) :
    displayGo ('n' :: rest) true run =
      List.replicate (run - 1) '\\' ++ '\n' :: displayGo rest true 0 := by
  simp [displayGo, h]

/-- Core round-trip simulation: from any scan state whose pending run is
zero outside strings, and whose remaining input has no carriage return and
no line feed inside string literals, scanning `displayGo`'s output with
`saveGo` reproduces the pending backslashes and the remaining input. -/
theorem saveGo_displayGo (s : List Char) :
    ∀ (inStr : Bool) (run : Nat),
      cleanStringsGo s inStr run = true → (inStr = false → run = 0) →
      saveGo (displayGo s inStr run) inStr 0 = List.replicate run '\\' ++ s := by
  induction s with
  | nil =>
    intro inStr run _ hr
    cases inStr with
    | false =>
      rw [hr rfl]
      simp [displayGo, saveGo]
    | true =>
      show saveGo (displayGo [] true run) true 0 = _
      simp only [displayGo]
      rw [show (List.replicate run '\\' : List Char) =
            List.replicate run '\\' ++ [] by simp,
        saveGo_replicate_backslash run [] 0]
      simp [saveGo]
  | cons c rest ih =>
    intro inStr run hclean hr
    cases inStr with
    | false =>
      have h0 : run = 0 := hr rfl
      subst h0
      simp only [displayGo, if_neg Bool.false_ne_true, List.replicate_zero, List.nil_append]
      simp only [saveGo, if_neg Bool.false_ne_true]
      have hcl : cleanStringsGo rest (c == '"') 0 = true := by
        have h2 := hclean
        simp only [cleanStringsGo, if_neg Bool.false_ne_true] at h2
        exact h2
      rw [ih (c == '"') 0 hcl (fun _ => rfl)]
      simp
    | true =>
      by_cases hb : c = '\\'
      · subst hb
        simp only [displayGo, if_pos trivial, if_pos rfl]
        have hcl : cleanStringsGo rest true (run + 1) = true := by
          simpa only [cleanStringsGo, if_pos trivial, if_pos rfl] using hclean
        rw [ih true (run + 1) hcl (by simp)]
        rw [List.replicate_succ']
        simp
      · by_cases hq : c = '"'
        · subst hq
          simp only [displayGo, if_pos trivial, if_neg hb, if_pos rfl]
          rw [show List.replicate run '\\' ++ '"' :: displayGo rest (decide (run % 2 = 1)) 0 =
                List.replicate run '\\' ++ ('"' :: displayGo rest (decide (run % 2 = 1)) 0)
              from rfl,
            saveGo_replicate_backslash run _ 0, Nat.zero_add]
          simp only [saveGo, if_pos trivial, if_neg hb, if_pos rfl]
          have hcl : cleanStringsGo rest (decide (run % 2 = 1)) 0 = true := by
            simpa only [cleanStringsGo, if_pos trivial, if_neg hb, if_pos rfl] using hclean
          rw [ih (decide (run % 2 = 1)) 0 hcl (fun _ => rfl)]
          simp only [Nat.zero_add, List.replicate_zero, List.nil_append]
        · have hcr : ¬(c = '\r' ∨ c = '\n') := by
            intro habs
            have := hclean
            simp only [cleanStringsGo, if_pos trivial, if_neg hb, if_neg hq, if_pos habs] at this
            exact Bool.false_ne_true this
          have hcl : cleanStringsGo rest true 0 = true := by
            simpa only [cleanStringsGo, if_pos trivial, if_neg hb, if_neg hq,
              if_neg hcr] using hclean
          by_cases hn : c = 'n' ∧ 0 < run
          · obtain ⟨hn1, hn2⟩ := hn
            subst hn1
            rw [displayGo_n_run rest run hn2,
              saveGo_replicate_backslash (run - 1) _ 0, Nat.zero_add]
            simp only [saveGo, if_pos trivial,
              if_neg (by decide : ¬('\n' : Char) = '\\'),
              if_neg (by decide : ¬('\n' : Char) = '"'),
              if_neg (by decide : ¬('\n' : Char) = '\r'), if_pos rfl]
            rw [ih true 0 hcl (by simp)]
            simp only [List.replicate_zero, List.nil_append]
            rw [show ('\\' :: 'n' :: rest : List Char) = ['\\'] ++ 'n' :: rest from rfl,
              ← List.append_assoc, ← List.replicate_succ']
            have hrr : run - 1 + 1 = run := by omega
            rw [hrr]
          · simp only [displayGo, if_pos trivial, if_neg hb, if_neg hq, if_neg hn]
            rw [saveGo_replicate_backslash run _ 0, Nat.zero_add]
            have hcr1 : ¬c = '\r' := fun h => hcr (Or.inl h)
            have hcr2 : ¬c = '\n' := fun h => hcr (Or.inr h)
            simp only [saveGo, if_pos trivial, if_neg hb, if_neg hq, if_neg hcr1, if_neg hcr2]
            rw [ih true 0 hcl (by simp)]
            simp only [List.replicate_zero, List.nil_append]

/-- `isLikelyJson` skips a leading JS-whitespace character. -/
theorem isLikelyJson_cons_ws (c : Char) (t : List Char) (hw : isJsWhitespace c = true) :
    isLikelyJson (c :: t) = isLikelyJson t := by
  unfold isLikelyJson
  rw [List.dropWhile_cons, if_pos hw]

/-- `isLikelyJson` on a non-whitespace first character tests that
character. -/
theorem isLikelyJson_cons_not_ws (c : Char) (t : List Char)
    (hw : isJsWhitespace c = false) :
    isLikelyJson (c :: t) = (c == '\x7b' || c == '[') := by
  unfold isLikelyJson
  rw [List.dropWhile_cons, if_neg (by simp [hw])]

/-- `displayGo` preserves the likely-JSON test: characters outside strings,
in particular the leading whitespace and the first brace or bracket, are
copied unchanged. -/
theorem isLikelyJson_displayGo (s : List Char) (h : isLikelyJson s = true) :
    isLikelyJson (displayGo s false 0) = true := by
  induction s with
  | nil => simp [isLikelyJson] at h
  | cons c rest ih =>
    have hgo : displayGo (c :: rest) false 0 = c :: displayGo rest (c == '"') 0 := by
      simp only [displayGo, if_neg Bool.false_ne_true]
    cases hw : isJsWhitespace c with
    | true =>
      have hq : (c == '"') = false := by
        cases hcq : c == '"'
        · rfl
        · have hc : c = '"' := by simpa using hcq
          rw [hc] at hw
          exact absurd hw (by decide)
      rw [hgo, hq, isLikelyJson_cons_ws c _ hw]
      exact ih (by rwa [isLikelyJson_cons_ws c rest hw] at h)
    | false =>
      have hfirst : (c == '\x7b' || c == '[') = true := by
        rwa [isLikelyJson_cons_not_ws c rest hw] at h
      have hc2 : c = '\x7b' ∨ c = '[' := by simpa using hfirst
      have hq : (c == '"') = false := by
        rcases hc2 with hc | hc
        · subst hc; decide
        · subst hc; decide
      rw [hgo, hq, isLikelyJson_cons_not_ws c _ hw]
      exact hfirst

/-- Counterexample to claim C1: `x = {"` LF `"}` is likely JSON and has no
carriage return inside its string literal, yet the round trip turns the
real line feed inside the string into backslash-n. -/
theorem c1_counterexample :
    isLikelyJson ['{', '"', '\n', '"', '}'] = true ∧
    noCRinStrings ['{', '"', '\n', '"', '}'] = true ∧
    jsonStringsSaveNewlines (jsonStringsDisplayNewlines ['{', '"', '\n', '"', '}']) ≠
      ['{', '"', '\n', '"', '}'] := by
  refine ⟨by decide, by decide, by decide⟩

/-- Claim C1 as amended: the round trip `toRaw (toFriendly x) = x` holds for
likely-JSON `x` containing no carriage return and also no line feed inside
string literals (a raw-representation text). -/
theorem c1_roundtrip (x : List Char) (h1 : isLikelyJson x = true)
    (h2 : cleanStrings x = true) :
    jsonStringsSaveNewlines (jsonStringsDisplayNewlines x) = x := by
  unfold jsonStringsDisplayNewlines jsonStringsSaveNewlines
  rw [if_pos h1, if_pos (isLikelyJson_displayGo x h1)]
  simpa using saveGo_displayGo x false 0 h2 (fun _ => rfl)

/-- Witness for C1 (amended) at `{"a":"b\nc"}` (a literal backslash-n
escape inside the string). -/
theorem c1_roundtrip_witness :
    isLikelyJson ['{', '"', 'a', '"', ':', '"', 'b', '\\', 'n', 'c', '"', '}'] = true ∧
    cleanStrings ['{', '"', 'a', '"', ':', '"', 'b', '\\', 'n', 'c', '"', '}'] = true ∧
    jsonStringsSaveNewlines (jsonStringsDisplayNewlines
        ['{', '"', 'a', '"', ':', '"', 'b', '\\', 'n', 'c', '"', '}']) =
      ['{', '"', 'a', '"', ':', '"', 'b', '\\', 'n', 'c', '"', '}'] :=
  ⟨by decide, by decide,
    c1_roundtrip ['{', '"', 'a', '"', ':', '"', 'b', '\\', 'n', 'c', '"', '}']
      (by decide) (by decide)⟩

/-! ### Anchor building and matching (src/index.js lines 273-314) -/

/-- JS character indexing `text[i]`: out-of-range access yields `undefined`,
which compares unequal to every character; the embedding returns the NUL
character, which none of the scanned characters equal. -/
def charAt (text : List Char) (i : Int) : Char :=
  if 0 ≤ i then text.getD i.toNat '\x00' else '\x00'

/-- src/index.js `isRealNewline` (line 274). -/
def isRealNewline (ch : Char) : Bool := ch == '\n' || ch == '\r'

/-- src/index.js `isLiteralBackslashN` (line 273). -/
def isLiteralBackslashN (text : List Char) (i : Int) : Bool :=
  charAt text i == '\\' && charAt text (i + 1) == 'n'

/-- While loop of `buildAnchorIgnoringNewlines` (lines 279-284). -/
def buildAnchorGo (text : List Char) (i count : Nat) (out : List Char) : List Char :=
  if h : i < text.length ∧ out.length < count then
    if isLiteralBackslashN text i then buildAnchorGo text (i + 2) count out
    else if isRealNewline (charAt text i) then buildAnchorGo text (i + 1) count out
    else buildAnchorGo text (i + 1) count (out ++ [charAt text i])
  else out
termination_by text.length - i
decreasing_by
· omega
· omega
· omega

/-- src/index.js `buildAnchorIgnoringNewlines` (lines 276-286); the start
index is clamped below at 0 (line 278). -/
def buildAnchorIgnoringNewlines (text : List Char) (startIdx : Int) (count : Nat) :
    List Char :=
  buildAnchorGo text startIdx.toNat count []

/-- Inner while loop of `tryScan` (lines 296-303) for the forward direction
(`step = +1`): on a real newline the scan advances by `+1`.  Returns
`some firstIndex` on a full match of the anchor and `none` otherwise
(the JS `break` on a mismatch followed by the `ai === anchor.length`
test on line 304). -/
def matchAtFwd (text anchor : List Char) (ti : Int) (ai : Nat) (firstIndex : Int) :
    Option Int :=
  if h : ti < (text.length : Int) ∧ 0 ≤ ti ∧ ai < anchor.length then
    if isLiteralBackslashN text ti then matchAtFwd text anchor (ti + 2) ai firstIndex
    else if isRealNewline (charAt text ti) then matchAtFwd text anchor (ti + 1) ai firstIndex
    else if anchor.getD ai '\x00' = charAt text ti then
      matchAtFwd text anchor (ti + 1) (ai + 1) (if firstIndex = -1 then ti else firstIndex)
    else none
  else if ai = anchor.length then some firstIndex else none
termination_by ((text.length : Int) - ti).toNat
decreasing_by
· omega
· omega
· omega

/-- Termination measure for the backward matching loop: the newline case
moves `ti` back by one, but immediately after such a move the character
after `ti` is a newline, and from such a position the literal backslash-n
case can never fire again before the next anchor character is consumed. -/
def bwdMeasure (text anchor : List Char) (ti : Int) (ai : Nat) : Nat :=
  (anchor.length - ai) * (2 * text.length + 6) +
    (if isRealNewline (charAt text (ti + 1)) then (ti + 1).toNat
     else (2 * (text.length : Int) + 4 - ti).toNat)

/-- The backward measure decreases on the literal backslash-n step. -/
theorem bwdMeasure_lit (text anchor : List Char) (ti : Int) (ai : Nat)
    (h1 : ti < (text.length : Int)) (h2 : 0 ≤ ti)
    (hn : charAt text (ti + 1) = 'n') :
    bwdMeasure text anchor (ti + 2) ai < bwdMeasure text anchor ti ai := by
  unfold bwdMeasure
  have hfalse : isRealNewline (charAt text (ti + 1)) = false := by rw [hn]; rfl
  rw [hfalse]
  rw [if_neg (show ¬(false = true) by decide)]
  generalize (anchor.length - ai) * (2 * text.length + 6) = t
  split <;> omega

/-- The backward measure decreases on the real-newline step `ti - 1`. -/
theorem bwdMeasure_nl (text anchor : List Char) (ti : Int) (ai : Nat)
    (h1 : ti < (text.length : Int)) (h2 : 0 ≤ ti)
    (hnl : isRealNewline (charAt text ti) = true) :
    bwdMeasure text anchor (ti - 1) ai < bwdMeasure text anchor ti ai := by
  unfold bwdMeasure
  have ht : ti - 1 + 1 = ti := by omega
  rw [ht, hnl, if_pos rfl]
  generalize (anchor.length - ai) * (2 * text.length + 6) = t
  split <;> omega

/-- The backward measure decreases when an anchor character is consumed. -/
theorem bwdMeasure_match (text anchor : List Char) (ti : Int) (ai : Nat)
    (h1 : ti < (text.length : Int)) (h2 : 0 ≤ ti) (h3 : ai < anchor.length) :
    bwdMeasure text anchor (ti + 1) (ai + 1) < bwdMeasure text anchor ti ai := by
  unfold bwdMeasure
  have hsub : anchor.length - ai = (anchor.length - (ai + 1)) + 1 := by omega
  rw [hsub, Nat.add_mul, Nat.one_mul]
  generalize (anchor.length - (ai + 1)) * (2 * text.length + 6) = t
  split <;> split <;> omega

/-- Inner while loop of `tryScan` (lines 296-303) for the backward
direction (`step = -1`): on a real newline the scan moves `ti` back by
one (line 299); all other moves go forward exactly as in the forward
direction. -/
def matchAtBwd (text anchor : List Char) (ti : Int) (ai : Nat) (firstIndex : Int) :
    Option Int :=
  if h : ti < (text.length : Int) ∧ 0 ≤ ti ∧ ai < anchor.length then
    if hlit : isLiteralBackslashN text ti then matchAtBwd text anchor (ti + 2) ai firstIndex
    else if hnl : isRealNewline (charAt text ti) then
      matchAtBwd text anchor (ti - 1) ai firstIndex
    else if anchor.getD ai '\x00' = charAt text ti then
      matchAtBwd text anchor (ti + 1) (ai + 1) (if firstIndex = -1 then ti else firstIndex)
    else none
  else if ai = anchor.length then some firstIndex else none
termination_by bwdMeasure text anchor ti ai
decreasing_by
· have hn : charAt text (ti + 1) = 'n' := by
    simp only [isLiteralBackslashN, Bool.and_eq_true, beq_iff_eq] at hlit
    exact hlit.2
  exact bwdMeasure_lit text anchor ti ai h.1 h.2.1 hn
· exact bwdMeasure_nl text anchor ti ai h.1 h.2.1 hnl
· exact bwdMeasure_match text anchor ti ai h.1 h.2.1 h.2.2

/-- Outer candidate loop of `tryScan` (line 294) in the forward direction:
`s` runs from `aroundIndex` up to `end` inclusive; the first full match
returns its `firstIndex`, otherwise `-1` (line 306). -/
def tryScanFwdLoop (text anchor : List Char) (s endI : Int) : Int :=
  if h : s ≤ endI then
    match matchAtFwd text anchor s 0 (-1) with
    | some fi => fi
    | none => tryScanFwdLoop text anchor (s + 1) endI
  else -1
termination_by (endI + 1 - s).toNat
decreasing_by
· omega

/-- Outer candidate loop of `tryScan` in the backward direction: `s` runs
from `aroundIndex` down to `start` inclusive. -/
def tryScanBwdLoop (text anchor : List Char) (s startI : Int) : Int :=
  if h : startI ≤ s then
    match matchAtBwd text anchor s 0 (-1) with
    | some fi => fi
    | none => tryScanBwdLoop text anchor (s - 1) startI
  else -1
termination_by (s + 1 - startI).toNat
decreasing_by
· omega

/-- src/index.js `findAnchorIgnoringNewlines` (lines 288-314): empty anchor
returns the guess (line 289); otherwise scan forward then backward within
the clipped window, falling back to the guess (line 313). -/
def findAnchorIgnoringNewlines (text anchor : List Char) (aroundIndex radius : Int) : Int :=
  if anchor.length = 0 then aroundIndex
  else
    let idx := tryScanFwdLoop text anchor aroundIndex
      (min (text.length : Int) (aroundIndex + radius))
    if idx ≠ -1 then idx
    else
      let idx2 := tryScanBwdLoop text anchor aroundIndex (max 0 (aroundIndex - radius))
      if idx2 ≠ -1 then idx2 else aroundIndex

/-- `buildAnchorGo` stops as soon as the collected output is full. -/
theorem buildAnchorGo_stop (text : List Char) (i count : Nat) (out : List Char)
    (h : ¬ out.length < count) : buildAnchorGo text i count out = out := by
  rw [buildAnchorGo, dif_neg (by tauto)]

/-- Extending a take-prefix by the next element. -/
theorem take_getD_concat (l : List Char) (n : Nat) (hn : n < l.length) (d : Char) :
    l.take n ++ [l.getD n d] = l.take (n + 1) := by
  rw [List.getD_eq_getElem l d hn, List.take_succ, List.getElem?_eq_getElem hn]
  simp

/-- Once the forward matcher has matched its first character (so
`firstIndex` is no longer `-1`), a successful scan returns that
`firstIndex`, and re-scanning from the current position with
`buildAnchorGo` completes the already-matched prefix of the anchor to the
whole anchor: every move of the forward matcher is mirrored by a move of
the anchor builder. -/
theorem matchAtFwd_found (text anchor : List Char) (ti : Int) (ai : Nat) (fi : Int) :
    ∀ r : Int, matchAtFwd text anchor ti ai fi = some r → fi ≠ -1 →
      r = fi ∧ buildAnchorGo text ti.toNat anchor.length (anchor.take ai) = anchor := by
  induction ti, ai, fi using matchAtFwd.induct text anchor with
  | case1 ti ai fi h hlit ih =>
    intro r hm hfi
    rw [matchAtFwd, dif_pos h, if_pos hlit] at hm
    obtain ⟨hr, hb⟩ := ih r hm hfi
    refine ⟨hr, ?_⟩
    have hcast : ((ti.toNat : Nat) : Int) = ti := Int.toNat_of_nonneg h.2.1
    rw [buildAnchorGo,
      dif_pos ⟨by omega, by rw [List.length_take]; omega⟩,
      if_pos (show isLiteralBackslashN text ((ti.toNat : Nat) : Int) = true by
        rw [hcast]; exact hlit)]
    have h2 : (ti + 2).toNat = ti.toNat + 2 := by omega
    rw [h2] at hb
    exact hb
  | case2 ti ai fi h hlit hnl ih =>
    intro r hm hfi
    rw [matchAtFwd, dif_pos h, if_neg hlit, if_pos hnl] at hm
    obtain ⟨hr, hb⟩ := ih r hm hfi
    refine ⟨hr, ?_⟩
    have hcast : ((ti.toNat : Nat) : Int) = ti := Int.toNat_of_nonneg h.2.1
    rw [buildAnchorGo,
      dif_pos ⟨by omega, by rw [List.length_take]; omega⟩,
      if_neg (show ¬(isLiteralBackslashN text ((ti.toNat : Nat) : Int) = true) by
        rw [hcast]; exact hlit),
      if_pos (show isRealNewline (charAt text ((ti.toNat : Nat) : Int)) = true by
        rw [hcast]; exact hnl)]
    have h2 : (ti + 1).toNat = ti.toNat + 1 := by omega
    rw [h2] at hb
    exact hb
  | case3 ti ai fi h hlit hnl hmc ih =>
    intro r hm hfi
    rw [matchAtFwd, dif_pos h, if_neg hlit, if_neg hnl, if_pos hmc, if_neg hfi] at hm
    rw [dif_neg hfi] at ih
    obtain ⟨hr, hb⟩ := ih r hm hfi
    refine ⟨hr, ?_⟩
    have hcast : ((ti.toNat : Nat) : Int) = ti := Int.toNat_of_nonneg h.2.1
    rw [buildAnchorGo,
      dif_pos ⟨by omega, by rw [List.length_take]; omega⟩,
      if_neg (show ¬(isLiteralBackslashN text ((ti.toNat : Nat) : Int) = true) by
        rw [hcast]; exact hlit),
      if_neg (show ¬(isRealNewline (charAt text ((ti.toNat : Nat) : Int)) = true) by
        rw [hcast]; exact hnl)]
    rw [show charAt text ((ti.toNat : Nat) : Int) = anchor.getD ai '\x00' by
      rw [hcast]; exact hmc.symm]
    rw [take_getD_concat anchor ai h.2.2 '\x00']
    have h2 : (ti + 1).toNat = ti.toNat + 1 := by omega
    rw [h2] at hb
    exact hb
  | case4 ti ai fi h hlit hnl hmc =>
    intro r hm hfi
    rw [matchAtFwd, dif_pos h, if_neg hlit, if_neg hnl, if_neg hmc] at hm
    exact absurd hm (by simp)
  | case5 ti fi hg =>
    intro r hm hfi
    rw [matchAtFwd, dif_neg hg, if_pos rfl] at hm
    have hr : fi = r := by injection hm
    subst hr
    refine ⟨rfl, ?_⟩
    rw [List.take_length]
    exact buildAnchorGo_stop text _ _ anchor (by omega)
  | case6 ti ai fi hg hne =>
    intro r hm hfi
    rw [matchAtFwd, dif_neg hg, if_neg hne] at hm
    exact absurd hm (by simp)

/-- A successful forward match started with `ai = 0`, `firstIndex = -1`
returns an offset `r ≥ 0` from which `buildAnchorGo` rebuilds exactly the
anchor. -/
theorem matchAtFwd_start (text anchor : List Char) (ti : Int) (ai : Nat) (fi : Int) :
    ai = 0 → fi = -1 → ∀ r : Int, matchAtFwd text anchor ti ai fi = some r → r ≠ -1 →
      0 ≤ r ∧ buildAnchorGo text r.toNat anchor.length [] = anchor := by
  induction ti, ai, fi using matchAtFwd.induct text anchor with
  | case1 ti ai fi h hlit ih =>
    intro h0 hf1 r hm hr1
    rw [matchAtFwd, dif_pos h, if_pos hlit] at hm
    exact ih h0 hf1 r hm hr1
  | case2 ti ai fi h hlit hnl ih =>
    intro h0 hf1 r hm hr1
    rw [matchAtFwd, dif_pos h, if_neg hlit, if_pos hnl] at hm
    exact ih h0 hf1 r hm hr1
  | case3 ti ai fi h hlit hnl hmc ih =>
    intro h0 hf1 r hm hr1
    subst h0
    subst hf1
    rw [matchAtFwd, dif_pos h, if_neg hlit, if_neg hnl, if_pos hmc, if_pos rfl] at hm
    have hfound := matchAtFwd_found text anchor (ti + 1) 1 ti r hm (by omega)
    obtain ⟨hr, hb⟩ := hfound
    rw [hr]
    refine ⟨h.2.1, ?_⟩
    have hcast : ((ti.toNat : Nat) : Int) = ti := Int.toNat_of_nonneg h.2.1
    rw [buildAnchorGo,
      dif_pos ⟨by omega, by simpa using h.2.2⟩,
      if_neg (show ¬(isLiteralBackslashN text ((ti.toNat : Nat) : Int) = true) by
        rw [hcast]; exact hlit),
      if_neg (show ¬(isRealNewline (charAt text ((ti.toNat : Nat) : Int)) = true) by
        rw [hcast]; exact hnl)]
    rw [show charAt text ((ti.toNat : Nat) : Int) = anchor.getD 0 '\x00' by
      rw [hcast]; exact hmc.symm]
    rw [List.nil_append,
      show ([anchor.getD 0 '\x00'] : List Char) = anchor.take 0 ++ [anchor.getD 0 '\x00'] by
        simp,
      take_getD_concat anchor 0 h.2.2 '\x00']
    have h2 : (ti + 1).toNat = ti.toNat + 1 := by omega
    rw [h2] at hb
    exact hb
  | case4 ti ai fi h hlit hnl hmc =>
    intro h0 hf1 r hm hr1
    rw [matchAtFwd, dif_pos h, if_neg hlit, if_neg hnl, if_neg hmc] at hm
    exact absurd hm (by simp)
  | case5 ti fi hg =>
    intro h0 hf1 r hm hr1
    rw [matchAtFwd, dif_neg hg, if_pos rfl] at hm
    have hr : fi = r := by injection hm
    subst hf1
    exact absurd hr.symm hr1
  | case6 ti ai fi hg hne =>
    intro h0 hf1 r hm hr1
    rw [matchAtFwd, dif_neg hg, if_neg hne] at hm
    exact absurd hm (by simp)

/-- Any non-`-1` result of the forward candidate loop is an offset from
which the anchor rebuilds exactly. -/
theorem tryScanFwdLoop_found (text anchor : List Char) (s endI : Int) :
    tryScanFwdLoop text anchor s endI ≠ -1 →
    0 ≤ tryScanFwdLoop text anchor s endI ∧
    buildAnchorGo text (tryScanFwdLoop text anchor s endI).toNat anchor.length [] =
      anchor := by
  induction s, endI using tryScanFwdLoop.induct text anchor with
  | case1 s endI h fi heq =>
    intro hne
    rw [tryScanFwdLoop, dif_pos h, heq] at hne ⊢
    exact matchAtFwd_start text anchor s 0 (-1) rfl rfl fi heq hne
  | case2 s endI h heq ih =>
    intro hne
    rw [tryScanFwdLoop, dif_pos h, heq] at hne ⊢
    exact ih hne
  | case3 s endI h =>
    intro hne
    rw [tryScanFwdLoop, dif_neg h] at hne
    exact absurd rfl hne

/-- Invariant of the anchor-building loop: the output never exceeds
`count` characters and never contains a line feed or carriage return. -/
theorem buildAnchorGo_inv (text : List Char) (i count : Nat) (out : List Char) :
    out.length ≤ count → (∀ c ∈ out, isRealNewline c = false) →
    (buildAnchorGo text i count out).length ≤ count ∧
    ∀ c ∈ buildAnchorGo text i count out, isRealNewline c = false := by
  induction i, count, out using buildAnchorGo.induct text with
  | case1 i count out h hlit ih =>
    intro hl ho
    rw [buildAnchorGo, dif_pos h, if_pos hlit]
    exact ih hl ho
  | case2 i count out h hlit hnl ih =>
    intro hl ho
    rw [buildAnchorGo, dif_pos h, if_neg hlit, if_pos hnl]
    exact ih hl ho
  | case3 i count out h hlit hnl ih =>
    intro hl ho
    rw [buildAnchorGo, dif_pos h, if_neg hlit, if_neg hnl]
    refine ih ?_ ?_
    · simp only [List.length_append, List.length_singleton]
      omega
    · intro c hc
      rcases List.mem_append.mp hc with hc1 | hc1
      · exact ho c hc1
      · have : c = charAt text ((i : Nat) : Int) := by simpa using hc1
        subst this
        cases hch : isRealNewline (charAt text ((i : Nat) : Int))
        · rfl
        · exact absurd hch hnl
  | case4 i count out h =>
    intro hl ho
    rw [buildAnchorGo, dif_neg h]
    exact ⟨hl, ho⟩

/-- Claim C10: for every text, start offset and count,
`buildAnchorIgnoringNewlines` returns a string of length at most `count`
containing no real line-break and no carriage-return character, and it is
total — a negative start offset is clamped to 0. -/
theorem c10_build_anchor_invariants (text : List Char) (startIdx : Int) (count : Nat) :
    (buildAnchorIgnoringNewlines text startIdx count).length ≤ count ∧
    (∀ c ∈ buildAnchorIgnoringNewlines text startIdx count, isRealNewline c = false) ∧
    (startIdx < 0 →
      buildAnchorIgnoringNewlines text startIdx count =
        buildAnchorIgnoringNewlines text 0 count) := by
  have hinv := buildAnchorGo_inv text startIdx.toNat count []
    (by simp) (by intro c hc; simp at hc)
  refine ⟨hinv.1, hinv.2, ?_⟩
  intro hneg
  unfold buildAnchorIgnoringNewlines
  rw [show startIdx.toNat = (0 : Int).toNat by omega]

/-- Witness for C10 at text `a` LF `b`, start `-1`, count 2. -/
theorem c10_build_anchor_invariants_witness :
    (buildAnchorIgnoringNewlines ['a', '\n', 'b'] (-1) 2).length ≤ 2 ∧
    buildAnchorIgnoringNewlines ['a', '\n', 'b'] (-1) 2 =
      buildAnchorIgnoringNewlines ['a', '\n', 'b'] 0 2 :=
  ⟨(c10_build_anchor_invariants ['a', '\n', 'b'] (-1) 2).1,
   (c10_build_anchor_invariants ['a', '\n', 'b'] (-1) 2).2.2 (by decide)⟩

/-- Claim C9: `findAnchorIgnoringNewlines` returns `guessOffset`
unchanged for an empty anchor; when both directional scans fail it
returns `guessOffset` (silent degrade); and it never returns `-1` when
`guessOffset` is not `-1` (the `-1` sentinel of the scans does not
leak). -/
theorem c9_find_anchor_fallback (text anchor : List Char) (guess radius : Int) :
    (anchor = [] → findAnchorIgnoringNewlines text anchor guess radius = guess) ∧
    (tryScanFwdLoop text anchor guess (min (text.length : Int) (guess + radius)) = -1 →
      tryScanBwdLoop text anchor guess (max 0 (guess - radius)) = -1 →
      findAnchorIgnoringNewlines text anchor guess radius = guess) ∧
    (guess ≠ -1 → findAnchorIgnoringNewlines text anchor guess radius ≠ -1) := by
  refine ⟨?_, ?_, ?_⟩
  · intro h
    subst h
    simp [findAnchorIgnoringNewlines]
  · intro hf hb
    simp only [findAnchorIgnoringNewlines]
    split
    · rfl
    · rw [hf, hb]
      simp
  · intro hg
    simp only [findAnchorIgnoringNewlines]
    split
    · exact hg
    · split
      · assumption
      · split
        · assumption
        · exact hg

/-- Witness for C9: on empty text nothing matches, and the guess 5 comes
back unchanged. -/
theorem c9_find_anchor_fallback_witness :
    findAnchorIgnoringNewlines [] ['a'] 5 2 = 5 ∧
    findAnchorIgnoringNewlines [] ['a'] 5 2 ≠ -1 := by
  have hf : tryScanFwdLoop [] ['a'] 5 (min ((List.length ([] : List Char) : Nat) : Int) (5 + 2)) = -1 := by
    rw [show (min ((List.length ([] : List Char) : Nat) : Int) (5 + 2) : Int) = 0 by norm_num]
    rw [tryScanFwdLoop]
    norm_num
  have n5 : ∀ s : Int, matchAtBwd [] ['a'] s 0 (-1) = none := by
    intro s
    rw [matchAtBwd]
    simp
  have hb : tryScanBwdLoop [] ['a'] 5 (max 0 (5 - 2)) = -1 := by
    rw [show (max 0 (5 - 2) : Int) = 3 by norm_num]
    rw [tryScanBwdLoop]
    simp only [n5]
    norm_num
    rw [tryScanBwdLoop]
    simp only [n5]
    norm_num
    rw [tryScanBwdLoop]
    simp only [n5]
    norm_num
    rw [tryScanBwdLoop]
    norm_num
  exact ⟨(c9_find_anchor_fallback [] ['a'] 5 2).2.1 hf hb,
    (c9_find_anchor_fallback [] ['a'] 5 2).2.2 (by norm_num)⟩

/-- Claim C5 as amended: the result of `findAnchorIgnoringNewlines` is
the guess offset or the result of one of the two directional scans, and
every match found by the FORWARD scan is an offset at which the next
`anchor.length` newline-skipped characters equal the anchor
(`buildAnchorIgnoringNewlines` rebuilds the anchor there).  Matches found
by the backward scan do not satisfy this in general (see the
counterexample): its newline rule moves the cursor backward and may
re-match the same character. -/
theorem c5_anchor_match (text anchor : List Char) (guess radius : Int) :
    (findAnchorIgnoringNewlines text anchor guess radius = guess ∨
     findAnchorIgnoringNewlines text anchor guess radius =
       tryScanFwdLoop text anchor guess (min (text.length : Int) (guess + radius)) ∨
     findAnchorIgnoringNewlines text anchor guess radius =
       tryScanBwdLoop text anchor guess (max 0 (guess - radius))) ∧
    (∀ s endI : Int, tryScanFwdLoop text anchor s endI ≠ -1 →
      buildAnchorIgnoringNewlines text (tryScanFwdLoop text anchor s endI) anchor.length =
        anchor) := by
  constructor
  · simp only [findAnchorIgnoringNewlines]
    split
    · exact Or.inl rfl
    · split
      · exact Or.inr (Or.inl rfl)
      · split
        · exact Or.inr (Or.inr rfl)
        · exact Or.inl rfl
  · intro s endI h
    have hfound := tryScanFwdLoop_found text anchor s endI h
    unfold buildAnchorIgnoringNewlines
    exact hfound.2

/-- Witness for C5 (amended): a forward match on text `ab`, anchor `a`. -/
theorem c5_anchor_match_witness :
    tryScanFwdLoop ['a', 'b'] ['a'] 0 2 ≠ -1 ∧
    buildAnchorIgnoringNewlines ['a', 'b'] (tryScanFwdLoop ['a', 'b'] ['a'] 0 2)
      (List.length ['a']) = ['a'] := by
  have m1 : matchAtFwd ['a', 'b'] ['a'] 1 1 0 = some 0 := by
    rw [matchAtFwd]
    simp
  have m0 : matchAtFwd ['a', 'b'] ['a'] 0 0 (-1) = some 0 := by
    rw [matchAtFwd]
    simp [charAt, isLiteralBackslashN, isRealNewline, m1]
  have hne : tryScanFwdLoop ['a', 'b'] ['a'] 0 2 ≠ -1 := by
    rw [tryScanFwdLoop]
    simp [m0]
  exact ⟨hne, (c5_anchor_match ['a', 'b'] ['a'] 0 4).2 0 2 hne⟩

/-- Counterexample to claim C5: on text `a` LF with anchor `aa` and
guess 2, the backward scan matches the single `a` twice (stepping back
over the newline) and returns offset 0, where only one newline-skipped
character remains — the claimed `buildAnchor` equation fails. -/
theorem c5_counterexample :
    findAnchorIgnoringNewlines ['a', '\n'] ['a', 'a'] 2 4096 = 0 ∧
    (0 : Int) ≠ 2 ∧
    buildAnchorIgnoringNewlines ['a', '\n'] 0 2 = ['a'] ∧
    buildAnchorIgnoringNewlines ['a', '\n'] 0 2 ≠ ['a', 'a'] := by
  have e1 : matchAtFwd ['a', '\n'] ['a', 'a'] 2 0 (-1) = none := by
    rw [matchAtFwd]
    simp
  have e2 : tryScanFwdLoop ['a', '\n'] ['a', 'a'] 2 2 = -1 := by
    rw [tryScanFwdLoop]
    simp [e1]
    rw [tryScanFwdLoop]
    norm_num
  have e3 : matchAtBwd ['a', '\n'] ['a', 'a'] 2 0 (-1) = none := by
    rw [matchAtBwd]
    simp
  have m4 : matchAtBwd ['a', '\n'] ['a', 'a'] 1 2 0 = some 0 := by
    rw [matchAtBwd]
    simp
  have m3 : matchAtBwd ['a', '\n'] ['a', 'a'] 0 1 0 = some 0 := by
    rw [matchAtBwd]
    simp [charAt, isLiteralBackslashN, isRealNewline, m4]
  have m2 : matchAtBwd ['a', '\n'] ['a', 'a'] 1 1 0 = some 0 := by
    rw [matchAtBwd]
    simp [charAt, isLiteralBackslashN, isRealNewline, m3]
  have m1 : matchAtBwd ['a', '\n'] ['a', 'a'] 0 0 (-1) = some 0 := by
    rw [matchAtBwd]
    simp [charAt, isLiteralBackslashN, isRealNewline, m2]
  have m0 : matchAtBwd ['a', '\n'] ['a', 'a'] 1 0 (-1) = some 0 := by
    rw [matchAtBwd]
    simp [charAt, isLiteralBackslashN, isRealNewline, m1]
  have b1 : tryScanBwdLoop ['a', '\n'] ['a', 'a'] 2 0 = 0 := by
    rw [tryScanBwdLoop]
    simp [e3]
    rw [tryScanBwdLoop]
    simp [m0]
  have hbuild : buildAnchorIgnoringNewlines ['a', '\n'] 0 2 = ['a'] := by
    unfold buildAnchorIgnoringNewlines
    rw [buildAnchorGo]
    simp [charAt, isLiteralBackslashN, isRealNewline]
    rw [buildAnchorGo]
    simp [charAt, isLiteralBackslashN, isRealNewline]
    rw [buildAnchorGo]
    simp [charAt, isLiteralBackslashN, isRealNewline]
  refine ⟨?_, by norm_num, hbuild, by rw [hbuild]; simp⟩
  simp only [findAnchorIgnoringNewlines]
  norm_num [e2, b1]
